import Mathlib

/-!
Shallow embedding of the internal token ledger and staking engine of the
botshop repository (src/slh_internal_wallets.py, src/main.py, src/db.py,
src/SLH/admin_tools.py), together with theorems settling the spec claims.

Modelling conventions:
* Postgres NUMERIC amounts are modelled as rationals (ℚ); additions and
  subtractions of NUMERIC values are exact, so ℚ is faithful for them.
* Python Decimal.quantize with the default ROUND_HALF_EVEN context is
  modelled by an explicit half-even rounding function on ℚ.
* A database table is a list of rows; SERIAL ids are modelled by a
  next-id counter in the state.
* `db_cursor` commits on normal exit of the with-block (also on early
  `return`), so every path of an operation that returns normally commits
  the statements executed so far; this is reflected by each operation
  returning the state as mutated up to its return point.
* The DB-unavailable branches (cursor is None) are not modelled: all
  claims below concern behaviour with a reachable store.
-/

namespace BotShop

/-- A row of the internal_wallets table (src/slh_internal_wallets.py,
init_internal_wallet_schema): id, user_id (unique), username, balance_slh. -/
structure Wallet where
  walletId : Nat
  userId : Int
  username : Option String
  balance : ℚ
  deriving Repr, DecidableEq

/-- A row of the internal_wallet_ledger table: wallet_id, change_slh,
reason, ref_type, ref_id. -/
structure LedgerEntry where
  walletId : Nat
  change : ℚ
  reason : String
  refType : Option String
  refId : Option Int
  deriving Repr, DecidableEq

/-- A row of the staking_positions table (fields used by the claims). -/
structure StakePos where
  posId : Nat
  userId : Int
  walletId : Nat
  amount : ℚ
  apy : ℚ
  lockDays : Int
  status : String
  deriving Repr, DecidableEq

/-- The committed database state of the wallet subsystem. -/
structure WalletState where
  wallets : List Wallet
  ledger : List LedgerEntry
  stakes : List StakePos
  nextWalletId : Nat
  nextPosId : Nat
  deriving Repr, DecidableEq

/-- The empty database, right after init_internal_wallet_schema. -/
def initState : WalletState := ⟨[], [], [], 0, 0⟩

/-- SELECT ... FROM internal_wallets WHERE user_id = uid (user_id is UNIQUE). -/
def findWallet (ws : List Wallet) (uid : Int) : Option Wallet :=
  ws.find? (fun w => decide (w.userId = uid))

/-- UPDATE internal_wallets SET balance_slh = v WHERE id = wid. -/
def setBal (ws : List Wallet) (wid : Nat) (v : ℚ) : List Wallet :=
  ws.map (fun w => if w.walletId = wid then { w with balance := v } else w)

/-- INSERT INTO internal_wallets (user_id, username) VALUES (uid, uname)
ON CONFLICT (user_id) DO NOTHING. -/
def ensureRow (s : WalletState) (uid : Int) (uname : Option String) : WalletState :=
  match findWallet s.wallets uid with
  | some _ => s
  | none =>
      { s with
        wallets := s.wallets ++ [⟨s.nextWalletId, uid, uname, 0⟩],
        nextWalletId := s.nextWalletId + 1 }

/-- Sum of change_slh over the ledger entries of one wallet. -/
def sumLedger (es : List LedgerEntry) (wid : Nat) : ℚ :=
  (es.map (fun e => if e.walletId = wid then e.change else 0)).sum

/-- ensure_internal_wallet (src/slh_internal_wallets.py:107-136):
INSERT ... ON CONFLICT (user_id) DO UPDATE SET username = EXCLUDED.username,
RETURNING the row.  The upsert unconditionally overwrites username with the
supplied value, including overwriting with NULL. -/
def ensure_internal_wallet (s : WalletState) (uid : Int) (uname : Option String) :
    WalletState × Wallet :=
  match findWallet s.wallets uid with
  | some w =>
      let w' := { w with username := uname }
      ({ s with wallets :=
          s.wallets.map (fun v => if v.walletId = w.walletId then { v with username := uname } else v) },
        w')
  | none =>
      let w : Wallet := ⟨s.nextWalletId, uid, uname, 0⟩
      ({ s with wallets := s.wallets ++ [w], nextWalletId := s.nextWalletId + 1 }, w)

/-- Result of credit_wallet. -/
inductive CreditResult where
  | ok (walletId : Nat) (newBalance : ℚ)
  | valueError
  deriving Repr, DecidableEq

/-- credit_wallet (src/slh_internal_wallets.py:188-247): raises ValueError on
amount ≤ 0 before touching the DB; otherwise ensures the wallet row, runs
UPDATE balance_slh = COALESCE(balance_slh,0) + amount,
username = COALESCE(supplied, username), and appends one ledger entry. -/
def credit_wallet (s : WalletState) (uid : Int) (uname : Option String) (amount : ℚ)
    (reason : String) (refType : Option String) (refId : Option Int) :
    WalletState × CreditResult :=
  if amount ≤ 0 then (s, .valueError)
  else
    let s1 := ensureRow s uid uname
    match findWallet s1.wallets uid with
    | none => (s1, .valueError)
    | some w =>
        let newBal := w.balance + amount
        let ws := s1.wallets.map (fun v =>
          if v.walletId = w.walletId then
            { v with balance := v.balance + amount,
                     username := uname.orElse (fun _ => v.username) }
          else v)
        let led := s1.ledger ++ [⟨w.walletId, amount, reason, refType, refId⟩]
        ({ s1 with wallets := ws, ledger := led }, .ok w.walletId newBal)

/-- Result of transfer_between_users (the (bool,msg) pair, by message). -/
inductive TResult where
  | success
  | amountNotPositive
  | noSenderWallet
  | noReceiverWallet
  | insufficient
  deriving Repr, DecidableEq

/-- transfer_between_users (src/slh_internal_wallets.py:250-329).
Returns the committed state, the result, and the trace of wallet row ids
locked by SELECT ... FOR UPDATE, in execution order.  Note: the two
ensure-inserts are committed even on the insufficient-funds return (the
db_cursor context manager commits on every normal exit), the receiver's
balance is read before either UPDATE runs, and the two UPDATEs both match
the same row when sender = receiver. -/
def transfer_between_users (s : WalletState) (fromUser toUser : Int) (amount : ℚ) :
    WalletState × TResult × List Nat :=
  if amount ≤ 0 then (s, .amountNotPositive, [])
  else
    let s1 := ensureRow s fromUser none
    let s2 := ensureRow s1 toUser none
    match findWallet s2.wallets fromUser with
    | none => (s2, .noSenderWallet, [])
    | some fw =>
        if fw.balance < amount then (s2, .insufficient, [fw.walletId])
        else
          match findWallet s2.wallets toUser with
          | none => (s2, .noReceiverWallet, [fw.walletId])
          | some tw =>
              let newFrom := fw.balance - amount
              let newTo := tw.balance + amount
              let ws1 := setBal s2.wallets fw.walletId newFrom
              let ws2 := setBal ws1 tw.walletId newTo
              let led := s2.ledger ++
                [⟨fw.walletId, -amount, "transfer to user " ++ toString toUser,
                    some "transfer", some toUser⟩,
                 ⟨tw.walletId, amount, "transfer from user " ++ toString fromUser,
                    some "transfer", some fromUser⟩]
              ({ s2 with wallets := ws2, ledger := led }, .success, [fw.walletId, tw.walletId])

/-- Result of create_stake_position. -/
inductive StakeResult where
  | ok (posId : Nat)
  | amountNotPositive
  | apyNotPositive
  | noWallet
  | insufficient
  deriving Repr, DecidableEq

/-- create_stake_position (src/slh_internal_wallets.py:332-394): rejects
amount ≤ 0 and apy ≤ 0; lock_days is not validated.  Locks the wallet row,
checks the balance, debits it, inserts the staking position with status
active, and appends one ledger entry. -/
def create_stake_position (s : WalletState) (uid : Int) (amount apy : ℚ)
    (lockDays : Int) : WalletState × StakeResult :=
  if amount ≤ 0 then (s, .amountNotPositive)
  else if apy ≤ 0 then (s, .apyNotPositive)
  else
    match findWallet s.wallets uid with
    | none => (s, .noWallet)
    | some w =>
        if w.balance < amount then (s, .insufficient)
        else
          let ws := setBal s.wallets w.walletId (w.balance - amount)
          let pos : StakePos :=
            ⟨s.nextPosId, uid, w.walletId, amount, apy, lockDays, "active"⟩
          let led := s.ledger ++
            [⟨w.walletId, -amount, "stake position " ++ toString s.nextPosId,
                some "stake", some (Int.ofNat s.nextPosId)⟩]
          ({ s with wallets := ws, stakes := s.stakes ++ [pos], ledger := led,
                    nextPosId := s.nextPosId + 1 }, .ok s.nextPosId)

/-! ### Issuance side (src/main.py and the pure converter in
src/slh_internal_wallets.py) -/

/-- Round a rational to the nearest integer, ties to even
(Python Decimal's default ROUND_HALF_EVEN). -/
def roundHalfEven (x : ℚ) : ℤ :=
  let f := ⌊x⌋
  let frac := x - f
  if frac < 1/2 then f
  else if 1/2 < frac then f + 1
  else if Even f then f else f + 1

/-- Decimal.quantize at n fractional digits (half-even). -/
def quantizeAt (n : Nat) (x : ℚ) : ℚ :=
  (roundHalfEven (x * (10 : ℚ) ^ n) : ℚ) / (10 : ℚ) ^ n

/-- compute_slh_for_entry (src/main.py:502-511): entry / price quantized to
4 fractional digits; 0 when price ≤ 0. -/
def compute_slh_for_entry (priceNis entryNis : ℚ) : ℚ :=
  if priceNis ≤ 0 then 0
  else quantizeAt 4 (entryNis / priceNis)

/-- mint_slh_from_payment (src/slh_internal_wallets.py:430-438): a PURE
converter from an NIS amount to an SLH amount at the env-configured token
price; it takes exactly one argument and touches no wallet. -/
def mint_slh_from_payment (amountNis : ℚ) (envTokenPrice : ℚ) : ℚ :=
  if envTokenPrice ≤ 0 then 0
  else quantizeAt 18 (amountNis / envTokenPrice)

/-- The positional-parameter count of the mint_slh_from_payment definition
imported by src/main.py (def mint_slh_from_payment(amount_nis): one). -/
def mint_slh_from_payment_paramCount : Nat := 1

/-- Python exception kinds reached by the embedded code. -/
inductive PyErr where
  | typeError
  | valueError
  | attributeError
  | importError (missing : String)
  deriving Repr, DecidableEq

/-- Calling mint_slh_from_payment with a given number of positional
arguments: a TypeError unless the count matches the definition. -/
def call_mint_slh_from_payment (numArgs : Nat) (firstArg envTokenPrice : ℚ) :
    Except PyErr ℚ :=
  if numArgs = mint_slh_from_payment_paramCount then
    .ok (mint_slh_from_payment firstArg envTokenPrice)
  else
    .error .typeError

/-- The dynamic config slh_dynamic_config.json plus the env token price
used by mint_slh_from_payment. -/
structure Config where
  slhNisPrice : ℚ
  nisEntryAmount : ℚ
  totalSlhMinted : ℚ
  envTokenPrice : ℚ
  deriving Repr, DecidableEq

/-- Whole-system state for the issuance flow. -/
structure SysState where
  db : WalletState
  cfg : Config
  deriving Repr, DecidableEq

/-- get_current_price_and_entry (src/main.py:478-489). -/
def get_current_price_and_entry (st : SysState) : ℚ × ℚ :=
  (st.cfg.slhNisPrice, st.cfg.nisEntryAmount)

/-- record_mint_amount (src/main.py:490-498): total_slh_minted += amount. -/
def record_mint_amount (st : SysState) (amount : ℚ) : SysState :=
  { st with cfg := { st.cfg with totalSlhMinted := st.cfg.totalSlhMinted + amount } }

/-- auto_mint_slh_for_entry (src/main.py:1201-1237), the mint step of the
payment-approval flow.  It computes the amount, then calls
mint_slh_from_payment(user_id, amount_slh, reason) — three positional
arguments; on the resulting TypeError it retries with two; the second
TypeError is swallowed by the outer except, which returns None.  On the
(unreachable) success path it would only record the total, since
mint_slh_from_payment credits no wallet. -/
def auto_mint_slh_for_entry (st : SysState) (_userId : Int) : SysState × Option ℚ :=
  let price := (get_current_price_and_entry st).1
  let entry := (get_current_price_and_entry st).2
  let amount := compute_slh_for_entry price entry
  if amount ≤ 0 then (st, none)
  else
    match call_mint_slh_from_payment 3 amount st.cfg.envTokenPrice with
    | .ok _ => (record_mint_amount st amount, some amount)
    | .error .typeError =>
        match call_mint_slh_from_payment 2 amount st.cfg.envTokenPrice with
        | .ok _ => (record_mint_amount st amount, some amount)
        | .error _ => (st, none)
    | .error _ => (st, none)

/-- set_price_command's state change (src/main.py:1388-1399): rejects a new
price ≤ 0, otherwise stores it in the dynamic config. -/
def set_price (st : SysState) (newPrice : ℚ) : SysState :=
  if newPrice ≤ 0 then st
  else { st with cfg := { st.cfg with slhNisPrice := newPrice } }

/-- approve_command's wallet-affecting steps (src/main.py:1264-1277):
ensure_internal_wallet(target, None) followed by auto_mint_slh_for_entry. -/
def approve_flow (st : SysState) (targetId : Int) : SysState × Option ℚ :=
  let db1 := (ensure_internal_wallet st.db targetId none).1
  auto_mint_slh_for_entry { st with db := db1 } targetId

/-! ### Admin snapshot reporter (src/SLH/admin_tools.py) and its imports
from src/db.py -/

/-- The module-level function names defined by src/db.py. -/
def db_py_defines : List String :=
  ["get_conn", "db_cursor", "init_schema", "log_payment", "update_payment_status",
   "store_user", "add_referral", "get_top_referrers", "get_monthly_payments",
   "get_reserve_stats", "get_approval_stats", "create_reward",
   "get_user_total_points", "increment_metric", "get_metric", "get_users_stats",
   "add_wallet", "get_user_wallets", "get_primary_wallet", "create_token_sale",
   "list_token_sales", "get_user_token_sales", "create_post", "list_recent_posts",
   "ensure_extra_tables", "fetch_posts", "add_post", "fetch_token_sales",
   "has_approved_payment", "get_pending_payments"]

/-- The names src/SLH/admin_tools.py imports from db
(from db import db_cursor, get_payments_stats). -/
def admin_tools_db_imports : List String := ["db_cursor", "get_payments_stats"]

/-- Importing src/SLH/admin_tools.py: resolves its from-db import list
against what db.py defines; the first unresolved name raises ImportError. -/
def import_admin_tools : Except PyErr Unit :=
  match admin_tools_db_imports.find? (fun n => !db_py_defines.contains n) with
  | some n => .error (.importError n)
  | none => .ok ()

/-- Runtime values relevant to the with-statement in
get_admin_wallet_snapshot. -/
inductive PyVal where
  | cursor
  | pair (fst snd : PyVal)
  | noneVal
  deriving Repr, DecidableEq

/-- The db_cursor context manager (src/db.py:26-41) yields the PAIR
(conn, cur). -/
def db_cursor_yield (conn cur : PyVal) : PyVal := .pair conn cur

/-- Attribute lookup v.execute: only a cursor has an execute method; on a
tuple it raises AttributeError. -/
def call_execute (v : PyVal) : Except PyErr Unit :=
  match v with
  | .cursor => .ok ()
  | _ => .error .attributeError

/-- The first statements of get_admin_wallet_snapshot's with-block
(src/SLH/admin_tools.py:90-100): with db_cursor() as cur binds cur to the
yielded (conn, cur) pair, and then cur.execute(...) runs on that pair.
If the body raises, db_cursor rolls back and re-raises. -/
def admin_snapshot_body (conn cur : PyVal) : Except PyErr Unit :=
  let bound := db_cursor_yield conn cur
  call_execute bound

/-- get_admin_wallet_snapshot as reachable at runtime: the module import
must succeed, then the with-block body runs.  The result is the error the
caller observes (it is never a snapshot value). -/
def get_admin_wallet_snapshot_run (conn cur : PyVal) : Except PyErr Unit := do
  let _ ← import_admin_tools
  admin_snapshot_body conn cur

/-! ### Sequences of public operations (for the ledger invariant) -/

/-- One public operation of the wallet subsystem. -/
inductive Op where
  | ensure (uid : Int) (uname : Option String)
  | credit (uid : Int) (uname : Option String) (amount : ℚ) (reason : String)
      (refType : Option String) (refId : Option Int)
  | transfer (fromUser toUser : Int) (amount : ℚ)
  | stakeOpen (uid : Int) (amount apy : ℚ) (lockDays : Int)

/-- Apply one operation, keeping only the committed state. -/
def applyOp (s : WalletState) : Op → WalletState
  | .ensure uid uname => (ensure_internal_wallet s uid uname).1
  | .credit uid uname amount reason refType refId =>
      (credit_wallet s uid uname amount reason refType refId).1
  | .transfer fromUser toUser amount =>
      (transfer_between_users s fromUser toUser amount).1
  | .stakeOpen uid amount apy lockDays =>
      (create_stake_position s uid amount apy lockDays).1

/-- Run a sequence of public operations from a state. -/
def runOps (s : WalletState) : List Op → WalletState
  | [] => s
  | op :: rest => runOps (applyOp s op) rest

/-- An operation is a transfer between two distinct users, or not a
transfer at all. -/
def Op.noSelfTransfer : Op → Prop
  | .transfer fromUser toUser _ => fromUser ≠ toUser
  | _ => True

/-! ### Interleaving model of two concurrent opposite transfers

transfer_between_users runs inside one Postgres transaction: it reads each
balance only under the row's FOR UPDATE lock, its UPDATEs become visible
atomically at commit, and row locks are held until commit/rollback.  For
the scenario of the claim (wallets A and B, balances 10 and 0, transaction
0 = transfer(A→B,10), transaction 1 = transfer(B→A,10)) each transaction
therefore has exactly two globally visible steps:
* lock its sender's row and read the balance (failing the insufficient
  check releases the lock and ends the transaction), and
* lock the receiver's row, then commit both updates and release the locks.
Postgres resolves a cycle of lock waits by aborting one of the deadlocked
transactions; the aborted transaction rolls back with no visible writes. -/

/-- Phase of one transfer transaction.  Balances in this scenario are the
integers 0, 10, 20; NUMERIC addition/subtraction on them is exact, so ℤ is
a faithful carrier and lets the reachable set be checked by kernel
evaluation. -/
inductive TxPhase where
  | start
  | lockedSender (s : ℤ)
  | committed
  | failedInsufficient
  | abortedDeadlock
  deriving Repr, DecidableEq

/-- A configuration: committed balances of wallets A and B, the two row
locks, and both transactions' phases. -/
structure Conf where
  balA : ℤ
  balB : ℤ
  lockA : Bool
  lockB : Bool
  p0 : TxPhase
  p1 : TxPhase
  deriving Repr, DecidableEq

/-- Next step of transaction 0 = transfer(A→B, 10), if it is not blocked
on a lock: lock A and read/check the sender balance, then lock B and
commit both updates. -/
def stepProc0 (c : Conf) : Option Conf :=
  match c.p0 with
  | .start =>
      if c.lockA then none
      else if c.balA < 10 then some { c with p0 := .failedInsufficient }
      else some { c with lockA := true, p0 := .lockedSender c.balA }
  | .lockedSender s =>
      if c.lockB then none
      else some { c with balA := s - 10, balB := c.balB + 10,
                         lockA := false, p0 := .committed }
  | _ => none

/-- Next step of transaction 1 = transfer(B→A, 10). -/
def stepProc1 (c : Conf) : Option Conf :=
  match c.p1 with
  | .start =>
      if c.lockB then none
      else if c.balB < 10 then some { c with p1 := .failedInsufficient }
      else some { c with lockB := true, p1 := .lockedSender c.balB }
  | .lockedSender s =>
      if c.lockA then none
      else some { c with balB := s - 10, balA := c.balA + 10,
                         lockB := false, p1 := .committed }
  | _ => none

/-- Both transactions hold their sender lock and wait for the other's:
the only lock-wait cycle of this system. -/
def deadlocked (c : Conf) : Bool :=
  match c.p0, c.p1 with
  | .lockedSender _, .lockedSender _ => true
  | _, _ => false

/-- All configurations reachable in one scheduler step: either transaction
moves if unblocked, and on the deadlock Postgres aborts either one
(rollback: its locks release, its writes never became visible). -/
def stepList (c : Conf) : List Conf :=
  (match stepProc0 c with | some c2 => [c2] | none => []) ++
  (match stepProc1 c with | some c2 => [c2] | none => []) ++
  (if deadlocked c then
    [{ c with lockA := false, p0 := .abortedDeadlock },
     { c with lockB := false, p1 := .abortedDeadlock }]
   else [])

/-- Initial configuration of the claim: A=10, B=0, both transfers pending. -/
def initConf : Conf := ⟨10, 0, false, false, .start, .start⟩

/-- One breadth-first expansion of the explored set. -/
def exploreOnce (seen : List Conf) : List Conf :=
  seen ++ ((seen.map stepList).flatten.filter (fun c => decide (c ∉ seen))).dedup

/-- Fuelled exploration to a step-closed set. -/
def explore : Nat → List Conf → List Conf
  | 0, seen => seen
  | n+1, seen =>
      let s2 := exploreOnce seen
      if s2 = seen then seen else explore n s2

/-- The concrete reachable-set over-approximation (it is exact here). -/
def reachList : List Conf := explore 20 [initConf]

/-- Reachability under the interleaving scheduler. -/
inductive ReachTx : Conf → Prop where
  | init : ReachTx initConf
  | step {c c2 : Conf} : ReachTx c → c2 ∈ stepList c → ReachTx c2

/-! ### Concrete states used to instantiate the theorems -/

/-- A wallet of user 7 holding 10 SLH. -/
def wA : Wallet := ⟨0, 7, none, 10⟩

/-- One-wallet state: user 7 with balance 10. -/
def sA : WalletState := ⟨[wA], [], [], 1, 0⟩

/-- One-wallet state: user 1 with balance 5 (user 2 has no wallet). -/
def sB : WalletState := ⟨[⟨0, 1, none, 5⟩], [], [], 1, 0⟩

/-- Two wallets: user 1 (row id 0) and user 2 (row id 1), both balance 10. -/
def sC : WalletState := ⟨[⟨0, 1, none, 10⟩, ⟨1, 2, none, 10⟩], [], [], 2, 0⟩

/-- One-wallet state: user 3 with balance 10. -/
def sD : WalletState := ⟨[⟨0, 3, none, 10⟩], [], [], 1, 0⟩

/-- System state with the price configured to 0 (entry 39). -/
def stZ : SysState := ⟨initState, ⟨0, 39, 0, 444⟩⟩

/-- System state right after the admin sets the price to 500 (entry 39). -/
def stW : SysState := ⟨initState, ⟨500, 39, 0, 444⟩⟩

/-- Credit user 1 with 10, then self-transfer 5: breaks the ledger invariant. -/
def cexOps : List Op := [.credit 1 none 10 "admin credit" none none, .transfer 1 1 5]

/-- The committed state after crediting user 1 with 10 from the empty store. -/
def sM : WalletState :=
  ⟨[⟨0, 1, none, 10⟩], [⟨0, 10, "admin credit", none, none⟩], [], 1, 0⟩

/-- Credit user 1 with 10, then transfer 5 to user 2: distinct parties. -/
def goodOps : List Op := [.credit 1 none 10 "admin credit" none none, .transfer 1 2 5]

/-- Transaction 0 locked wallet A and read balance 10. -/
def conf1 : Conf := ⟨10, 0, true, false, .lockedSender 10, .start⟩

/-- Transaction 0 committed: A=0, B=10. -/
def conf2 : Conf := ⟨0, 10, false, false, .committed, .start⟩

/-- Transaction 1 then locked wallet B and read balance 10. -/
def conf3 : Conf := ⟨0, 10, false, true, .committed, .lockedSender 10⟩

/-- Both transactions committed serially: back to A=10, B=0. -/
def confFinal : Conf := ⟨10, 0, false, false, .committed, .committed⟩

/-! ### Well-formedness and the ledger invariant -/

/-- Structural well-formedness of a committed state: user ids are unique
(UNIQUE constraint), wallet row ids are unique (SERIAL primary key), and
all ids in use are below the next SERIAL value. -/
structure WF (s : WalletState) : Prop where
  uids : s.wallets.Pairwise (fun a b => a.userId ≠ b.userId)
  wids : s.wallets.Pairwise (fun a b => a.walletId ≠ b.walletId)
  wbound : ∀ w ∈ s.wallets, w.walletId < s.nextWalletId
  lbound : ∀ e ∈ s.ledger, e.walletId < s.nextWalletId

/-- The spec's ledger invariant: every wallet's materialized balance equals
the sum of the deltas of its ledger entries. -/
def Balanced (s : WalletState) : Prop :=
  ∀ w ∈ s.wallets, w.balance = sumLedger s.ledger w.walletId

/-- Combined inductive invariant. -/
def Inv (s : WalletState) : Prop := WF s ∧ Balanced s

lemma sumLedger_nil (wid : Nat) : sumLedger [] wid = 0 := rfl

lemma sumLedger_append (es es2 : List LedgerEntry) (wid : Nat) :
    sumLedger (es ++ es2) wid = sumLedger es wid + sumLedger es2 wid := by
  simp [sumLedger]

lemma sumLedger_pair (e1 e2 : LedgerEntry) (wid : Nat) :
    sumLedger [e1, e2] wid =
      (if e1.walletId = wid then e1.change else 0) +
      (if e2.walletId = wid then e2.change else 0) := by
  simp [sumLedger]

lemma sumLedger_eq_zero {es : List LedgerEntry} {wid : Nat}
    (h : ∀ e ∈ es, e.walletId ≠ wid) : sumLedger es wid = 0 := by
  induction es with
  | nil => rfl
  | cons e es ih =>
      have he : e.walletId ≠ wid := h e (List.mem_cons_self e es)
      have : sumLedger es wid = 0 := ih (fun e' he' => h e' (List.mem_cons_of_mem e he'))
      simp [sumLedger, he] at this ⊢
      exact this

lemma pairwise_key_inj {κ : Type} (key : Wallet → κ) :
    ∀ {l : List Wallet}, l.Pairwise (fun a b => key a ≠ key b) →
      ∀ w1 ∈ l, ∀ w2 ∈ l, key w1 = key w2 → w1 = w2 := by
  intro l h
  induction h with
  | nil => intro w1 h1; exact absurd h1 (List.not_mem_nil w1)
  | cons hhead _htail ih =>
      intro w1 h1 w2 h2 hkey
      rcases List.mem_cons.mp h1 with rfl | h1m
      · rcases List.mem_cons.mp h2 with rfl | h2m
        · rfl
        · exact absurd hkey (hhead w2 h2m)
      · rcases List.mem_cons.mp h2 with rfl | h2m
        · exact absurd hkey.symm (hhead w1 h1m)
        · exact ih w1 h1m w2 h2m hkey

lemma findWallet_mem {ws : List Wallet} {uid : Int} {w : Wallet}
    (h : findWallet ws uid = some w) : w ∈ ws :=
  List.mem_of_find?_eq_some h

lemma findWallet_uid {ws : List Wallet} {uid : Int} {w : Wallet}
    (h : findWallet ws uid = some w) : w.userId = uid := by
  have := List.find?_some h
  simpa using this

lemma findWallet_none {ws : List Wallet} {uid : Int}
    (h : findWallet ws uid = none) : ∀ w ∈ ws, w.userId ≠ uid := by
  intro w hw
  have := List.find?_eq_none.mp h w hw
  simpa using this

lemma ensureRow_inv {s : WalletState} {uid : Int} {un : Option String}
    (h : Inv s) : Inv (ensureRow s uid un) := by
  obtain ⟨hwf, hbal⟩ := h
  unfold ensureRow
  cases hfind : findWallet s.wallets uid with
  | some w => exact ⟨hwf, hbal⟩
  | none =>
      have hnone := findWallet_none hfind
      refine ⟨⟨?_, ?_, ?_, ?_⟩, ?_⟩
      · rw [List.pairwise_append]
        refine ⟨hwf.uids, by simp, ?_⟩
        intro a ha b hb
        simp only [List.mem_singleton] at hb
        subst hb
        simpa using hnone a ha
      · rw [List.pairwise_append]
        refine ⟨hwf.wids, by simp, ?_⟩
        intro a ha b hb
        simp only [List.mem_singleton] at hb
        subst hb
        simpa using Nat.ne_of_lt (hwf.wbound a ha)
      · intro w hw
        rcases List.mem_append.mp hw with h1 | h2
        · exact Nat.lt_succ_of_lt (hwf.wbound w h1)
        · simp only [List.mem_singleton] at h2
          subst h2
          exact Nat.lt_succ_self _
      · intro e he
        exact Nat.lt_succ_of_lt (hwf.lbound e he)
      · intro w hw
        rcases List.mem_append.mp hw with h1 | h2
        · exact hbal w h1
        · simp only [List.mem_singleton] at h2
          subst h2
          exact (sumLedger_eq_zero (fun e he => Nat.ne_of_lt (hwf.lbound e he))).symm

/-- WF is preserved by any rewrite of the wallet list that keeps every
row's ids, together with appending ledger entries for existing wallets. -/
lemma wf_of_fields {s s' : WalletState} (hwf : WF s) (g : Wallet → Wallet)
    (hu : ∀ v, (g v).userId = v.userId)
    (hw : ∀ v, (g v).walletId = v.walletId)
    {newEntries : List LedgerEntry}
    (hws : s'.wallets = s.wallets.map g)
    (hld : s'.ledger = s.ledger ++ newEntries)
    (hnx : s'.nextWalletId = s.nextWalletId)
    (hle : ∀ e ∈ newEntries, e.walletId < s.nextWalletId) : WF s' := by
  refine ⟨?_, ?_, ?_, ?_⟩
  · rw [hws, List.pairwise_map]
    exact hwf.uids.imp (fun hab => by simpa [hu] using hab)
  · rw [hws, List.pairwise_map]
    exact hwf.wids.imp (fun hab => by simpa [hw] using hab)
  · intro w' hw'
    rw [hws] at hw'
    rcases List.mem_map.mp hw' with ⟨v, hv, rfl⟩
    rw [hw, hnx]
    exact hwf.wbound v hv
  · intro e he
    rw [hld] at he
    rw [hnx]
    rcases List.mem_append.mp he with h1 | h2
    · exact hwf.lbound e h1
    · exact hle e h2

lemma ensure_internal_wallet_eq_found {s : WalletState} {uid : Int}
    {un : Option String} {w : Wallet} (hfind : findWallet s.wallets uid = some w) :
    (ensure_internal_wallet s uid un).1 =
      { s with wallets := s.wallets.map (fun v => if v.walletId = w.walletId then { v with username := un } else v) } := by
  unfold ensure_internal_wallet
  rw [hfind]

lemma ensure_internal_wallet_eq_new {s : WalletState} {uid : Int}
    {un : Option String} (hfind : findWallet s.wallets uid = none) :
    (ensure_internal_wallet s uid un).1 = ensureRow s uid un := by
  unfold ensure_internal_wallet ensureRow
  rw [hfind]

lemma ensure_internal_wallet_inv {s : WalletState} {uid : Int} {un : Option String}
    (h : Inv s) : Inv (ensure_internal_wallet s uid un).1 := by
  obtain ⟨hwf, hbal⟩ := h
  cases hfind : findWallet s.wallets uid with
  | some w =>
      rw [ensure_internal_wallet_eq_found hfind]
      refine ⟨wf_of_fields hwf _ ?_ ?_ rfl (List.append_nil s.ledger).symm rfl (by simp), ?_⟩
      · intro v; by_cases hv : v.walletId = w.walletId <;> simp [hv]
      · intro v; by_cases hv : v.walletId = w.walletId <;> simp [hv]
      · intro w' hw'
        simp only at hw'
        rcases List.mem_map.mp hw' with ⟨v, hv, rfl⟩
        by_cases hvw : v.walletId = w.walletId
        · rw [if_pos hvw]
          exact hbal v hv
        · rw [if_neg hvw]
          exact hbal v hv
  | none =>
      rw [ensure_internal_wallet_eq_new hfind]
      exact ensureRow_inv ⟨hwf, hbal⟩

lemma credit_wallet_inv {s : WalletState} {uid : Int} {un : Option String}
    {amount : ℚ} {reason : String} {rt : Option String} {ri : Option Int}
    (h : Inv s) : Inv (credit_wallet s uid un amount reason rt ri).1 := by
  unfold credit_wallet
  by_cases hamt : amount ≤ 0
  · simpa [hamt] using h
  · simp only [hamt, if_false]
    have h1 : Inv (ensureRow s uid un) := ensureRow_inv h
    obtain ⟨hwf1, hbal1⟩ := h1
    cases hfind : findWallet (ensureRow s uid un).wallets uid with
    | none => exact ⟨hwf1, hbal1⟩
    | some w =>
        have hwmem := findWallet_mem hfind
        refine ⟨wf_of_fields hwf1 _ ?_ ?_ rfl rfl rfl ?_, ?_⟩
        · intro v; by_cases hv : v.walletId = w.walletId <;> simp [hv]
        · intro v; by_cases hv : v.walletId = w.walletId <;> simp [hv]
        · intro e he
          simp only [List.mem_singleton] at he
          subst he
          exact hwf1.wbound w hwmem
        · intro w' hw'
          simp only at hw'
          rcases List.mem_map.mp hw' with ⟨v, hv, rfl⟩
          have hv' := hbal1 v hv
          by_cases hvw : v.walletId = w.walletId
          · simp [hvw, sumLedger_append, sumLedger, hv']
          · simp only [hvw, if_false]
            rw [sumLedger_append]
            have hz : sumLedger
                [⟨w.walletId, amount, reason, rt, ri⟩] v.walletId = 0 := by
              simp only [sumLedger, List.map_cons, List.map_nil, List.sum_cons,
                List.sum_nil]
              rw [if_neg (fun hh => hvw hh.symm)]
              simp
            rw [hz, add_zero]
            exact hv'

lemma comp_setBal_userId (A B : Nat) (x y : ℚ) (v : Wallet) :
    ((fun w => if w.walletId = B then { w with balance := y } else w)
      ((fun w => if w.walletId = A then { w with balance := x } else w) v)).userId
      = v.userId := by
  by_cases hA : v.walletId = A <;> by_cases hB : v.walletId = B <;>
    simp [hA, hB] <;> split <;> simp [hA, hB]

lemma comp_setBal_walletId (A B : Nat) (x y : ℚ) (v : Wallet) :
    ((fun w => if w.walletId = B then { w with balance := y } else w)
      ((fun w => if w.walletId = A then { w with balance := x } else w) v)).walletId
      = v.walletId := by
  by_cases hA : v.walletId = A <;> by_cases hB : v.walletId = B <;>
    simp [hA, hB] <;> split <;> simp [hA, hB]

lemma transfer_eq_nonpos {s : WalletState} {f t : Int} {amount : ℚ}
    (h : amount ≤ 0) :
    transfer_between_users s f t amount = (s, .amountNotPositive, []) := by
  unfold transfer_between_users
  rw [if_pos h]

lemma transfer_eq_noSender {s : WalletState} {f t : Int} {amount : ℚ}
    (hamt : ¬ amount ≤ 0)
    (hfind : findWallet (ensureRow (ensureRow s f none) t none).wallets f = none) :
    transfer_between_users s f t amount =
      (ensureRow (ensureRow s f none) t none, .noSenderWallet, []) := by
  unfold transfer_between_users
  rw [if_neg hamt]
  simp only [hfind]

lemma transfer_eq_insufficient {s : WalletState} {f t : Int} {amount : ℚ}
    {fw : Wallet} (hamt : ¬ amount ≤ 0)
    (hfind : findWallet (ensureRow (ensureRow s f none) t none).wallets f = some fw)
    (hlt : fw.balance < amount) :
    transfer_between_users s f t amount =
      (ensureRow (ensureRow s f none) t none, .insufficient, [fw.walletId]) := by
  unfold transfer_between_users
  rw [if_neg hamt]
  simp only [hfind, hlt, if_pos]

lemma transfer_eq_noReceiver {s : WalletState} {f t : Int} {amount : ℚ}
    {fw : Wallet} (hamt : ¬ amount ≤ 0)
    (hfind : findWallet (ensureRow (ensureRow s f none) t none).wallets f = some fw)
    (hge : ¬ fw.balance < amount)
    (hfindt : findWallet (ensureRow (ensureRow s f none) t none).wallets t = none) :
    transfer_between_users s f t amount =
      (ensureRow (ensureRow s f none) t none, .noReceiverWallet, [fw.walletId]) := by
  unfold transfer_between_users
  rw [if_neg hamt]
  simp only [hfind, hfindt, hge, if_neg, if_false]

lemma transfer_eq_success {s : WalletState} {f t : Int} {amount : ℚ}
    {fw tw : Wallet} (hamt : ¬ amount ≤ 0)
    (hfind : findWallet (ensureRow (ensureRow s f none) t none).wallets f = some fw)
    (hge : ¬ fw.balance < amount)
    (hfindt : findWallet (ensureRow (ensureRow s f none) t none).wallets t = some tw) :
    transfer_between_users s f t amount =
      (let s2 := ensureRow (ensureRow s f none) t none
       { s2 with
          wallets := setBal (setBal s2.wallets fw.walletId (fw.balance - amount))
            tw.walletId (tw.balance + amount),
          ledger := s2.ledger ++
            [⟨fw.walletId, -amount, "transfer to user " ++ toString t,
                some "transfer", some t⟩,
             ⟨tw.walletId, amount, "transfer from user " ++ toString f,
                some "transfer", some f⟩] },
       .success, [fw.walletId, tw.walletId]) := by
  unfold transfer_between_users
  rw [if_neg hamt]
  simp only [hfind, hfindt, hge, if_neg, if_false]

lemma transfer_inv {s : WalletState} {f t : Int} {amount : ℚ}
    (h : Inv s) (hft : f ≠ t) : Inv (transfer_between_users s f t amount).1 := by
  by_cases hamt : amount ≤ 0
  · rw [transfer_eq_nonpos hamt]
    exact h
  · have h2 : Inv (ensureRow (ensureRow s f none) t none) :=
      ensureRow_inv (ensureRow_inv h)
    cases hfind : findWallet (ensureRow (ensureRow s f none) t none).wallets f with
    | none =>
        rw [transfer_eq_noSender hamt hfind]
        exact h2
    | some fw =>
        by_cases hlt : fw.balance < amount
        · rw [transfer_eq_insufficient hamt hfind hlt]
          exact h2
        · cases hfindt : findWallet (ensureRow (ensureRow s f none) t none).wallets t with
          | none =>
              rw [transfer_eq_noReceiver hamt hfind hlt hfindt]
              exact h2
          | some tw =>
              rw [transfer_eq_success hamt hfind hlt hfindt]
              obtain ⟨hwf2, hbal2⟩ := h2
              have hfmem := findWallet_mem hfind
              have htmem := findWallet_mem hfindt
              have hfuid := findWallet_uid hfind
              have htuid := findWallet_uid hfindt
              have hwidne : fw.walletId ≠ tw.walletId := by
                intro hEq
                have := pairwise_key_inj Wallet.walletId hwf2.wids fw hfmem tw htmem hEq
                rw [this] at hfuid
                exact hft (hfuid ▸ htuid ▸ rfl)
              simp only [setBal, List.map_map]
              refine ⟨wf_of_fields hwf2 _ ?_ ?_ rfl rfl rfl ?_, ?_⟩
              · intro v
                simpa [Function.comp] using
                  comp_setBal_userId fw.walletId tw.walletId
                    (fw.balance - amount) (tw.balance + amount) v
              · intro v
                simpa [Function.comp] using
                  comp_setBal_walletId fw.walletId tw.walletId
                    (fw.balance - amount) (tw.balance + amount) v
              · intro e he
                simp only [List.mem_cons, List.mem_singleton] at he
                rcases he with rfl | rfl | hfalse
                · exact hwf2.wbound fw hfmem
                · exact hwf2.wbound tw htmem
                · exact absurd hfalse (List.not_mem_nil e)
              · intro w' hw'
                simp only at hw'
                rcases List.mem_map.mp hw' with ⟨v, hv, rfl⟩
                have hvbal := hbal2 v hv
                rw [sumLedger_append, sumLedger_pair]
                simp only [Function.comp]
                by_cases hvf : v.walletId = fw.walletId
                · have hv_eq_fw : v = fw :=
                    pairwise_key_inj Wallet.walletId hwf2.wids v hv fw hfmem hvf
                  have hvt : v.walletId ≠ tw.walletId := hvf ▸ hwidne
                  rw [if_pos hvf]
                  have hmid : ({ v with balance := fw.balance - amount } : Wallet).walletId
                      = v.walletId := rfl
                  rw [if_neg (hmid ▸ hvt)]
                  show fw.balance - amount =
                    sumLedger (ensureRow (ensureRow s f none) t none).ledger v.walletId +
                      ((if fw.walletId = v.walletId then -amount else 0) +
                       (if tw.walletId = v.walletId then amount else 0))
                  rw [if_pos hvf.symm, if_neg (fun hh => hvt hh.symm), ← hvbal, hv_eq_fw]
                  ring
                · rw [if_neg hvf]
                  by_cases hvt : v.walletId = tw.walletId
                  · rw [if_pos hvt]
                    have hv_eq_tw : v = tw :=
                      pairwise_key_inj Wallet.walletId hwf2.wids v hv tw htmem hvt
                    show tw.balance + amount =
                      sumLedger (ensureRow (ensureRow s f none) t none).ledger v.walletId +
                        ((if fw.walletId = v.walletId then -amount else 0) +
                         (if tw.walletId = v.walletId then amount else 0))
                    rw [if_neg (fun hh => hvf hh.symm), if_pos hvt.symm, ← hvbal, hv_eq_tw]
                    ring
                  · rw [if_neg hvt]
                    show v.balance =
                      sumLedger (ensureRow (ensureRow s f none) t none).ledger v.walletId +
                        ((if fw.walletId = v.walletId then -amount else 0) +
                         (if tw.walletId = v.walletId then amount else 0))
                    rw [if_neg (fun hh => hvf hh.symm), if_neg (fun hh => hvt hh.symm), ← hvbal]
                    ring

lemma setBal_fun_userId (A : Nat) (x : ℚ) (v : Wallet) :
    ((fun w => if w.walletId = A then { w with balance := x } else w) v).userId
      = v.userId := by
  by_cases h : v.walletId = A <;> simp [h]

lemma setBal_fun_walletId (A : Nat) (x : ℚ) (v : Wallet) :
    ((fun w => if w.walletId = A then { w with balance := x } else w) v).walletId
      = v.walletId := by
  by_cases h : v.walletId = A <;> simp [h]

lemma stake_eq_success {s : WalletState} {uid : Int} {amount apy : ℚ}
    {lockDays : Int} {w : Wallet} (hamt : ¬ amount ≤ 0) (happy : ¬ apy ≤ 0)
    (hfind : findWallet s.wallets uid = some w) (hge : ¬ w.balance < amount) :
    create_stake_position s uid amount apy lockDays =
      ({ s with
          wallets := setBal s.wallets w.walletId (w.balance - amount),
          stakes := s.stakes ++
            [⟨s.nextPosId, uid, w.walletId, amount, apy, lockDays, "active"⟩],
          ledger := s.ledger ++
            [⟨w.walletId, -amount, "stake position " ++ toString s.nextPosId,
                some "stake", some (Int.ofNat s.nextPosId)⟩],
          nextPosId := s.nextPosId + 1 }, .ok s.nextPosId) := by
  unfold create_stake_position
  rw [if_neg hamt, if_neg happy]
  simp only [hfind, hge, if_neg, if_false]

lemma stake_inv {s : WalletState} {uid : Int} {amount apy : ℚ} {lockDays : Int}
    (h : Inv s) : Inv (create_stake_position s uid amount apy lockDays).1 := by
  by_cases hamt : amount ≤ 0
  · unfold create_stake_position
    rw [if_pos hamt]
    exact h
  · by_cases happy : apy ≤ 0
    · unfold create_stake_position
      rw [if_neg hamt, if_pos happy]
      exact h
    · cases hfind : findWallet s.wallets uid with
      | none =>
          unfold create_stake_position
          rw [if_neg hamt, if_neg happy]
          simp only [hfind]
          exact h
      | some w =>
          by_cases hlt : w.balance < amount
          · unfold create_stake_position
            rw [if_neg hamt, if_neg happy]
            simp only [hfind, hlt, if_pos]
            exact h
          · rw [stake_eq_success hamt happy hfind hlt]
            obtain ⟨hwf, hbal⟩ := h
            have hwmem := findWallet_mem hfind
            refine ⟨wf_of_fields hwf _ (setBal_fun_userId w.walletId (w.balance - amount))
              (setBal_fun_walletId w.walletId (w.balance - amount)) rfl rfl rfl ?_, ?_⟩
            · intro e he
              simp only [List.mem_singleton] at he
              subst he
              exact hwf.wbound w hwmem
            · intro w' hw'
              simp only [setBal] at hw'
              rcases List.mem_map.mp hw' with ⟨v, hv, rfl⟩
              have hvbal := hbal v hv
              rw [sumLedger_append]
              by_cases hvw : v.walletId = w.walletId
              · have hv_eq : v = w :=
                  pairwise_key_inj Wallet.walletId hwf.wids v hv w hwmem hvw
                rw [if_pos hvw]
                show w.balance - amount =
                  sumLedger s.ledger v.walletId +
                    sumLedger [⟨w.walletId, -amount,
                      "stake position " ++ toString s.nextPosId,
                      some "stake", some (Int.ofNat s.nextPosId)⟩] v.walletId
                have hone : sumLedger [⟨w.walletId, -amount,
                    "stake position " ++ toString s.nextPosId,
                    some "stake", some (Int.ofNat s.nextPosId)⟩] v.walletId = -amount := by
                  simp [sumLedger, hvw.symm]
                rw [hone, ← hvbal, hv_eq]
                ring
              · rw [if_neg hvw]
                have hzero : sumLedger [⟨w.walletId, -amount,
                    "stake position " ++ toString s.nextPosId,
                    some "stake", some (Int.ofNat s.nextPosId)⟩] v.walletId = 0 := by
                  simp only [sumLedger, List.map_cons, List.map_nil, List.sum_cons,
                    List.sum_nil]
                  rw [if_neg (fun hh => hvw hh.symm)]
                  simp
                rw [hzero, add_zero]
                exact hvbal

lemma applyOp_inv {s : WalletState} {op : Op} (h : Inv s)
    (hop : op.noSelfTransfer) : Inv (applyOp s op) := by
  cases op with
  | ensure uid uname => exact ensure_internal_wallet_inv h
  | credit uid uname amount reason rt ri => exact credit_wallet_inv h
  | transfer f t amount => exact transfer_inv h hop
  | stakeOpen uid amount apy lockDays => exact stake_inv h

lemma runOps_inv {s : WalletState} (h : Inv s) :
    ∀ ops : List Op, (∀ op ∈ ops, op.noSelfTransfer) → Inv (runOps s ops) := by
  intro ops
  induction ops generalizing s with
  | nil => intro _; exact h
  | cons op rest ih =>
      intro hall
      have hop := hall op (List.mem_cons_self op rest)
      have hrest := fun o ho => hall o (List.mem_cons_of_mem op ho)
      exact ih (applyOp_inv h hop) hrest

lemma initState_inv : Inv initState := by
  refine ⟨⟨?_, ?_, ?_, ?_⟩, ?_⟩ <;> simp [initState, Balanced]

lemma findWallet_map {ws : List Wallet} {uid : Int} {w : Wallet} (g : Wallet → Wallet)
    (hg : ∀ v, (g v).userId = v.userId) (hfind : findWallet ws uid = some w) :
    findWallet (ws.map g) uid = some (g w) := by
  induction ws with
  | nil => simp [findWallet] at hfind
  | cons h t ih =>
      unfold findWallet at hfind ⊢
      by_cases hh : h.userId = uid
      · rw [List.find?_cons_of_pos _ (by simpa using hh)] at hfind
        rw [List.map_cons, List.find?_cons_of_pos _ (by simp [hg, hh])]
        cases hfind
        rfl
      · rw [List.find?_cons_of_neg _ (by simpa using hh)] at hfind
        rw [List.map_cons, List.find?_cons_of_neg _ (by simp [hg, hh])]
        exact ih hfind

lemma ensureRow_found {s : WalletState} {uid : Int} {un : Option String}
    {w : Wallet} (hfind : findWallet s.wallets uid = some w) :
    ensureRow s uid un = s := by
  unfold ensureRow
  rw [hfind]

lemma ensureRow_ledger (s : WalletState) (uid : Int) (un : Option String) :
    (ensureRow s uid un).ledger = s.ledger := by
  unfold ensureRow
  cases findWallet s.wallets uid <;> rfl

lemma ensureRow_stakes (s : WalletState) (uid : Int) (un : Option String) :
    (ensureRow s uid un).stakes = s.stakes := by
  unfold ensureRow
  cases findWallet s.wallets uid <;> rfl

lemma ensureRow_mem {s : WalletState} {uid : Int} {un : Option String}
    {w : Wallet} (hw : w ∈ s.wallets) : w ∈ (ensureRow s uid un).wallets := by
  unfold ensureRow
  cases findWallet s.wallets uid with
  | some _ => exact hw
  | none => exact List.mem_append_left _ hw

lemma ensureRow_mem_rev {s : WalletState} {uid : Int} {un : Option String}
    {w : Wallet} (hw : w ∈ (ensureRow s uid un).wallets) :
    w ∈ s.wallets ∨ w.balance = 0 := by
  unfold ensureRow at hw
  cases hfind : findWallet s.wallets uid with
  | some v => rw [hfind] at hw; exact Or.inl hw
  | none =>
      rw [hfind] at hw
      rcases List.mem_append.mp hw with h1 | h2
      · exact Or.inl h1
      · simp only [List.mem_singleton] at h2
        subst h2
        exact Or.inr rfl

lemma findWallet_ensureRow_self {s : WalletState} {uid : Int} {un : Option String} :
    ∃ w, findWallet (ensureRow s uid un).wallets uid = some w ∧ w.userId = uid := by
  unfold ensureRow
  cases hfind : findWallet s.wallets uid with
  | some w => exact ⟨w, hfind, findWallet_uid hfind⟩
  | none =>
      refine ⟨⟨s.nextWalletId, uid, un, 0⟩, ?_, rfl⟩
      unfold findWallet at hfind ⊢
      simp only
      rw [List.find?_append, hfind]
      simp

lemma credit_eq_found {s : WalletState} {uid : Int} {un : Option String}
    {amount : ℚ} {reason : String} {rt : Option String} {ri : Option Int}
    {w : Wallet} (hamt : ¬ amount ≤ 0)
    (hfind : findWallet (ensureRow s uid un).wallets uid = some w) :
    credit_wallet s uid un amount reason rt ri =
      ({ ensureRow s uid un with
          wallets := (ensureRow s uid un).wallets.map (fun v => if v.walletId = w.walletId then { v with balance := v.balance + amount, username := un.orElse (fun _ => v.username) } else v),
          ledger := (ensureRow s uid un).ledger ++ [⟨w.walletId, amount, reason, rt, ri⟩] },
        .ok w.walletId (w.balance + amount)) := by
  unfold credit_wallet
  rw [if_neg hamt]
  simp only [hfind]

lemma reachList_closed :
    initConf ∈ reachList ∧ ∀ c ∈ reachList, ∀ c2 ∈ stepList c, c2 ∈ reachList := by
  decide

lemma reach_mem {c : Conf} (h : ReachTx c) : c ∈ reachList := by
  induction h with
  | init => exact reachList_closed.1
  | step hr hstep ih => exact reachList_closed.2 _ ih _ hstep

/-! ### Claims -/

/-- C1 (amended): for every committed state reachable from the empty store
by public operations in which every transfer has distinct sender and
receiver, each wallet's materialized balance equals the sum of the deltas
of its ledger entries.  (The original claim, quantifying over all
operation sequences, fails on self-transfers: see the counterexample.) -/
theorem claim_c1_ledger_invariant (ops : List Op)
    (h : ∀ op ∈ ops, op.noSelfTransfer) :
    ∀ w ∈ (runOps initState ops).wallets,
      w.balance = sumLedger (runOps initState ops).ledger w.walletId :=
  (runOps_inv initState_inv ops h).2

/-- Witness: the invariant holds concretely after crediting user 1 with 10
and transferring 5 from user 1 to user 2. -/
theorem claim_c1_ledger_invariant_witness : Balanced (runOps initState goodOps) := by
  have h : ∀ op ∈ goodOps, op.noSelfTransfer := by
    intro op hop
    simp only [goodOps, List.mem_cons, List.not_mem_nil, or_false] at hop
    rcases hop with rfl | rfl
    · trivial
    · intro heq
      exact absurd heq (by norm_num)
  exact claim_c1_ledger_invariant goodOps h

/-- C1 counterexample: crediting user 1 with 10 and then self-transferring
5 (a sequence of the claim's public operations) yields a committed state
where the wallet's balance (15) differs from its ledger sum (10). -/
theorem claim_c1_counterexample : ¬ Balanced (runOps initState cexOps) := by
  have hcredit : (credit_wallet initState 1 none 10 "admin credit" none none).1 = sM := by
    rw [credit_eq_found (by norm_num)
      (show findWallet (ensureRow initState 1 none).wallets 1 = some ⟨0, 1, none, 0⟩ from rfl)]
    rw [show ensureRow initState 1 none =
      (⟨[⟨0, 1, none, 0⟩], [], [], 1, 0⟩ : WalletState) from rfl]
    norm_num [sM]
  have hrun : runOps initState cexOps = (transfer_between_users sM 1 1 5).1 := by
    show runOps (applyOp initState (.credit 1 none 10 "admin credit" none none))
      [.transfer 1 1 5] = (transfer_between_users sM 1 1 5).1
    show runOps (credit_wallet initState 1 none 10 "admin credit" none none).1
      [.transfer 1 1 5] = (transfer_between_users sM 1 1 5).1
    rw [hcredit]
    rfl
  have htr := @transfer_eq_success sM 1 1 5 ⟨0, 1, none, 10⟩ ⟨0, 1, none, 10⟩
    (by norm_num) rfl (show ¬ (10:ℚ) < 5 by norm_num) rfl
  intro hbal
  rw [hrun, htr] at hbal
  have hmem : (⟨0, 1, none, 10 + 5⟩ : Wallet) ∈
      (setBal (setBal (ensureRow (ensureRow sM 1 none) 1 none).wallets 0 (10 - 5)) 0
        (10 + 5)) := by
    rw [show ensureRow (ensureRow sM 1 none) 1 none = sM from rfl]
    simp [setBal, sM]
  have := hbal _ hmem
  rw [show ensureRow (ensureRow sM 1 none) 1 none = sM from rfl] at this
  simp only [sM, sumLedger, List.map_append, List.map_cons, List.map_nil,
    List.sum_append, List.sum_cons, List.sum_nil] at this
  norm_num at this

/-- C2 (code evaluated at the failing input): the mint step of the
payment-approval flow never credits any wallet.  compute_slh_for_entry
does yield 39/500 = 0.078 at price 500 and entry 39, but
auto_mint_slh_for_entry calls mint_slh_from_payment — a one-parameter pure
converter — with three and then two positional arguments, so both calls
raise TypeError, the outer handler swallows it, and the function returns
None with the state unchanged.  Concretely, approving owner 9 right after
setting the price to 500 leaves owner 9's wallet at balance 0. -/
theorem claim_c2_mint_never_credits :
    (∀ st : SysState, ∀ uid : Int, auto_mint_slh_for_entry st uid = (st, none)) ∧
    compute_slh_for_entry 500 39 = 78 / 1000 ∧
    (approve_flow stW 9).2 = none ∧
    findWallet (approve_flow stW 9).1.db.wallets 9 = some ⟨0, 9, none, 0⟩ := by
  have hall : ∀ st : SysState, ∀ uid : Int, auto_mint_slh_for_entry st uid = (st, none) := by
    intro st uid
    unfold auto_mint_slh_for_entry call_mint_slh_from_payment mint_slh_from_payment_paramCount
    norm_num
  have happrove : approve_flow stW 9 =
      ({ stW with db := (ensure_internal_wallet stW.db 9 none).1 }, none) := by
    unfold approve_flow
    exact hall _ _
  refine ⟨hall, ?_, ?_, ?_⟩
  · unfold compute_slh_for_entry quantizeAt roundHalfEven
    norm_num
  · rw [happrove]
  · rw [happrove]
    rfl

/-- C5: when the configured price is ≤ 0, or the computed amount is ≤ 0,
the mint step of the payment-approval flow is a silent no-op: the returned
state is unchanged (no balance change, no journal entry) and the embedded
function returns normally with None — it raises nothing to the
surrounding approval flow. -/
theorem claim_c5_nonpositive_price_noop (st : SysState) (uid : Int)
    (h : st.cfg.slhNisPrice ≤ 0 ∨
         compute_slh_for_entry st.cfg.slhNisPrice st.cfg.nisEntryAmount ≤ 0) :
    auto_mint_slh_for_entry st uid = (st, none) := by
  have hamt : compute_slh_for_entry st.cfg.slhNisPrice st.cfg.nisEntryAmount ≤ 0 := by
    rcases h with hp | hc
    · unfold compute_slh_for_entry
      rw [if_pos hp]
    · exact hc
  simp only [auto_mint_slh_for_entry, get_current_price_and_entry]
  rw [if_pos hamt]

/-- Witness: with the price configured to 0 the mint step returns None and
leaves the state untouched. -/
theorem claim_c5_witness : auto_mint_slh_for_entry stZ 1 = (stZ, none) :=
  claim_c5_nonpositive_price_noop stZ 1 (Or.inl (le_refl 0))

/-- C3: a self-transfer of 0 < a ≤ balance succeeds and leaves the user's
balance at b + a — the receiver-side UPDATE (which sets the same row to
the receiver balance read before any update, b + a) overwrites the
sender-side debit — while the two appended ledger entries sum to zero, so
the wallet's ledger sum is unchanged. -/
theorem claim_c3_self_transfer (s : WalletState) (u : Int) (a : ℚ) (w : Wallet)
    (hfind : findWallet s.wallets u = some w) (h0 : 0 < a) (hle : a ≤ w.balance) :
    (transfer_between_users s u u a).2.1 = .success ∧
    findWallet (transfer_between_users s u u a).1.wallets u
      = some { w with balance := w.balance + a } ∧
    (transfer_between_users s u u a).1.ledger
      = s.ledger ++
        [⟨w.walletId, -a, "transfer to user " ++ toString u, some "transfer", some u⟩,
         ⟨w.walletId, a, "transfer from user " ++ toString u, some "transfer", some u⟩] ∧
    sumLedger (transfer_between_users s u u a).1.ledger w.walletId
      = sumLedger s.ledger w.walletId := by
  have hamt : ¬ a ≤ 0 := not_le.mpr h0
  have hens : ensureRow (ensureRow s u none) u none = s := by
    rw [ensureRow_found hfind, ensureRow_found hfind]
  have hfind2 : findWallet (ensureRow (ensureRow s u none) u none).wallets u = some w := by
    rw [hens]
    exact hfind
  have hge : ¬ w.balance < a := not_lt.mpr hle
  have htr := @transfer_eq_success s u u a w w hamt hfind2 hge hfind2
  rw [htr, hens]
  refine ⟨rfl, ?_, rfl, ?_⟩
  · show findWallet
      (setBal (setBal s.wallets w.walletId (w.balance - a)) w.walletId (w.balance + a)) u
      = some { w with balance := w.balance + a }
    have h1 : findWallet (setBal s.wallets w.walletId (w.balance - a)) u
        = some ((fun v => if v.walletId = w.walletId then { v with balance := w.balance - a } else v) w) :=
      findWallet_map _ (setBal_fun_userId w.walletId (w.balance - a)) hfind
    have h2 : findWallet
        (setBal (setBal s.wallets w.walletId (w.balance - a)) w.walletId (w.balance + a)) u
        = some ((fun v => if v.walletId = w.walletId then { v with balance := w.balance + a } else v)
            ((fun v => if v.walletId = w.walletId then { v with balance := w.balance - a } else v) w)) :=
      findWallet_map _ (setBal_fun_userId w.walletId (w.balance + a)) h1
    rw [h2]
    simp
  · show sumLedger (s.ledger ++
        [⟨w.walletId, -a, "transfer to user " ++ toString u, some "transfer", some u⟩,
         ⟨w.walletId, a, "transfer from user " ++ toString u, some "transfer", some u⟩])
        w.walletId = sumLedger s.ledger w.walletId
    rw [sumLedger_append, sumLedger_pair]
    simp
/-- Witness: in the one-wallet state sA (user 7, balance 10), the
self-transfer of 4 succeeds and leaves the balance at 10 + 4. -/
theorem claim_c3_witness :
    (transfer_between_users sA 7 7 4).2.1 = .success ∧
    findWallet (transfer_between_users sA 7 7 4).1.wallets 7
      = some { wA with balance := wA.balance + 4 } ∧
    (transfer_between_users sA 7 7 4).1.ledger
      = sA.ledger ++
        [⟨wA.walletId, -4, "transfer to user " ++ toString (7 : ℤ), some "transfer", some 7⟩,
         ⟨wA.walletId, 4, "transfer from user " ++ toString (7 : ℤ), some "transfer", some 7⟩] ∧
    sumLedger (transfer_between_users sA 7 7 4).1.ledger wA.walletId
      = sumLedger sA.ledger wA.walletId :=
  claim_c3_self_transfer sA 7 4 wA rfl (by norm_num) (by norm_num [wA])

/-- C4 counterexample: a transfer of 10 from user 1 (balance 5) to user 2,
who has no wallet yet, fails with the insufficient-funds message but does
NOT leave the stored state unchanged: the ensure-inserts are committed, so
a new wallet row for user 2 (balance 0) now exists. -/
theorem claim_c4_counterexample :
    (transfer_between_users sB 1 2 10).2.1 = .insufficient ∧
    (transfer_between_users sB 1 2 10).1 ≠ sB ∧
    findWallet (transfer_between_users sB 1 2 10).1.wallets 2 = some ⟨1, 2, none, 0⟩ := by
  have htr := @transfer_eq_insufficient sB 1 2 10 ⟨0, 1, none, 5⟩
    (by norm_num) rfl (by norm_num)
  have hstate : (transfer_between_users sB 1 2 10).1 =
      (⟨[⟨0, 1, none, 5⟩, ⟨1, 2, none, 0⟩], [], [], 2, 0⟩ : WalletState) := by
    rw [htr]
    rfl
  refine ⟨by rw [htr], ?_, by rw [hstate]; rfl⟩
  rw [hstate]
  intro h
  have := congrArg (fun st => st.wallets.length) h
  simp [sB] at this

/-- C4 (amended): an insufficient-funds transfer fails, changes no balance
of any existing wallet row, appends no ledger entry and no stake position;
however it is not entirely side-effect free: wallet rows for parties that
had none are created (with balance 0) and committed. -/
theorem claim_c4_insufficient_funds (s : WalletState) (f t : Int) (a : ℚ)
    (fw : Wallet) (ha : ¬ a ≤ 0)
    (hfind : findWallet (ensureRow (ensureRow s f none) t none).wallets f = some fw)
    (hlt : fw.balance < a) :
    (transfer_between_users s f t a).2.1 = .insufficient ∧
    (transfer_between_users s f t a).1.ledger = s.ledger ∧
    (transfer_between_users s f t a).1.stakes = s.stakes ∧
    (∀ w ∈ s.wallets, w ∈ (transfer_between_users s f t a).1.wallets) ∧
    (∀ w ∈ (transfer_between_users s f t a).1.wallets,
        w ∈ s.wallets ∨ w.balance = 0) := by
  have htr := @transfer_eq_insufficient s f t a fw ha hfind hlt
  rw [htr]
  refine ⟨rfl, ?_, ?_, ?_, ?_⟩
  · rw [ensureRow_ledger, ensureRow_ledger]
  · rw [ensureRow_stakes, ensureRow_stakes]
  · intro w hw
    exact ensureRow_mem (ensureRow_mem hw)
  · intro w hw
    rcases ensureRow_mem_rev hw with h1 | h2
    · rcases ensureRow_mem_rev h1 with h3 | h4
      · exact Or.inl h3
      · exact Or.inr h4
    · exact Or.inr h2

/-- Witness: the amended C4 statement at the concrete counterexample
input. -/
theorem claim_c4_witness :
    (transfer_between_users sB 1 2 10).2.1 = .insufficient ∧
    (transfer_between_users sB 1 2 10).1.ledger = sB.ledger ∧
    (transfer_between_users sB 1 2 10).1.stakes = sB.stakes ∧
    (∀ w ∈ sB.wallets, w ∈ (transfer_between_users sB 1 2 10).1.wallets) ∧
    (∀ w ∈ (transfer_between_users sB 1 2 10).1.wallets,
        w ∈ sB.wallets ∨ w.balance = 0) :=
  claim_c4_insufficient_funds sB 1 2 10 ⟨0, 1, none, 5⟩ (by norm_num) rfl (by norm_num)

/-- C6 counterexample: with wallets 0 (user 1) and 1 (user 2) both funded,
the FOR UPDATE lock trace of transfer(1→2) is [0, 1] while that of
transfer(2→1) is [1, 0]: the order follows the caller-supplied direction
(sender first), not a fixed global order. -/
theorem claim_c6_counterexample :
    (transfer_between_users sC 1 2 5).2.2 = [0, 1] ∧
    (transfer_between_users sC 2 1 5).2.2 = [1, 0] ∧
    (transfer_between_users sC 1 2 5).2.2 ≠ (transfer_between_users sC 2 1 5).2.2 := by
  have h12 := @transfer_eq_success sC 1 2 5 ⟨0, 1, none, 10⟩ ⟨1, 2, none, 10⟩
    (by norm_num) rfl (by norm_num) rfl
  have h21 := @transfer_eq_success sC 2 1 5 ⟨1, 2, none, 10⟩ ⟨0, 1, none, 10⟩
    (by norm_num) rfl (by norm_num) rfl
  rw [h12, h21]
  exact ⟨rfl, rfl, by decide⟩

/-- C6 (amended): a transfer that reaches the balance updates locks the
sender's wallet row first and the receiver's second — the order is the
caller-supplied direction, never a canonical global order. -/
theorem claim_c6_lock_order (s : WalletState) (f t : Int) (a : ℚ) (fw tw : Wallet)
    (ha : ¬ a ≤ 0)
    (hfind : findWallet (ensureRow (ensureRow s f none) t none).wallets f = some fw)
    (hge : ¬ fw.balance < a)
    (hfindt : findWallet (ensureRow (ensureRow s f none) t none).wallets t = some tw) :
    (transfer_between_users s f t a).2.2 = [fw.walletId, tw.walletId] := by
  rw [@transfer_eq_success s f t a fw tw ha hfind hge hfindt]

/-- Witness: the sender-first lock trace at the concrete input. -/
theorem claim_c6_witness : (transfer_between_users sC 1 2 5).2.2 = [0, 1] :=
  claim_c6_lock_order sC 1 2 5 ⟨0, 1, none, 10⟩ ⟨1, 2, none, 10⟩
    (by norm_num) rfl (by norm_num) rfl

/-- C7: every configuration reachable by interleaving the two opposite
transfers transfer(A→B,10) and transfer(B→A,10) from A=10, B=0 (including
lock waits and deadlock-abort resolutions) has non-negative committed
balances, and every terminal configuration ends with exactly one of the
two serializable outcomes {A=10,B=0} or {A=0,B=10} — in particular never
A=20, B=20. -/
theorem claim_c7_serializable (c : Conf) (h : ReachTx c) :
    (0 ≤ c.balA ∧ 0 ≤ c.balB) ∧
    (stepList c = [] →
      (c.balA = 10 ∧ c.balB = 0) ∨ (c.balA = 0 ∧ c.balB = 10)) := by
  have hall : ∀ c2 ∈ reachList,
      ((0 ≤ c2.balA ∧ 0 ≤ c2.balB) ∧
       (stepList c2 = [] →
         (c2.balA = 10 ∧ c2.balB = 0) ∨ (c2.balA = 0 ∧ c2.balB = 10))) := by
    decide
  exact hall c (reach_mem h)

/-- Witness: the serial execution (transfer A→B commits, then transfer
B→A commits) reaches the terminal configuration A=10, B=0. -/
theorem claim_c7_witness :
    (0 ≤ confFinal.balA ∧ 0 ≤ confFinal.balB) ∧
    (stepList confFinal = [] →
      (confFinal.balA = 10 ∧ confFinal.balB = 0) ∨
      (confFinal.balA = 0 ∧ confFinal.balB = 10)) := by
  have h0 : ReachTx initConf := ReachTx.init
  have h1 : ReachTx conf1 := ReachTx.step h0 (by decide)
  have h2 : ReachTx conf2 := ReachTx.step h1 (by decide)
  have h3 : ReachTx conf3 := ReachTx.step h2 (by decide)
  have h4 : ReachTx confFinal := ReachTx.step h3 (by decide)
  exact claim_c7_serializable confFinal h4

/-- C8 counterexample: ensure(5, "alice") stores the name, and a second
ensure(5, None) ERASES it — the upsert overwrites display_name with the
supplied value unconditionally, contradicting the claim that a call
supplying None never changes an existing display_name. -/
theorem claim_c8_counterexample :
    findWallet ((ensure_internal_wallet initState 5 (some "alice")).1).wallets 5
      = some ⟨0, 5, some "alice", 0⟩ ∧
    findWallet ((ensure_internal_wallet
        ((ensure_internal_wallet initState 5 (some "alice")).1) 5 none).1).wallets 5
      = some ⟨0, 5, none, 0⟩ :=
  ⟨rfl, rfl⟩

/-- C8 (amended): ensure is a get-or-create upsert, but on an existing
wallet it always overwrites the stored display_name with the supplied
value (including None), leaving the balance untouched. -/
theorem claim_c8_ensure_overwrites (s : WalletState) (uid : Int)
    (un : Option String) (w : Wallet) (hfind : findWallet s.wallets uid = some w) :
    findWallet (ensure_internal_wallet s uid un).1.wallets uid
      = some { w with username := un } := by
  rw [ensure_internal_wallet_eq_found hfind]
  show findWallet (s.wallets.map
    (fun v => if v.walletId = w.walletId then { v with username := un } else v)) uid
    = some { w with username := un }
  rw [findWallet_map _
    (fun v => by by_cases hv : v.walletId = w.walletId <;> simp [hv]) hfind]
  simp

/-- Witness: ensure(7, "bob") on the existing wallet of user 7 replaces
its display_name with "bob". -/
theorem claim_c8_witness :
    findWallet (ensure_internal_wallet sA 7 (some "bob")).1.wallets 7
      = some { wA with username := some "bob" } :=
  claim_c8_ensure_overwrites sA 7 (some "bob") wA rfl

/-- C9 counterexample: on a wallet with balance 10, open(3, 5, 10, 0) with
lock_days = 0 SUCCEEDS and records a stake position with lock_days = 0 —
the claimed lock_days > 0 validation does not exist. -/
theorem claim_c9_counterexample :
    (create_stake_position sD 3 5 10 0).2 = .ok 0 ∧
    (create_stake_position sD 3 5 10 0).1.stakes = [⟨0, 3, 0, 5, 10, 0, "active"⟩] := by
  have h := @stake_eq_success sD 3 5 10 0 ⟨0, 3, none, 10⟩
    (by norm_num) (by norm_num) rfl (by norm_num)
  rw [h]
  exact ⟨rfl, rfl⟩

/-- C9 (amended): open validates only principal > 0 and rate > 0 —
returning the corresponding error with the state unchanged — while
lock_days is not validated; consequently every stake position ever created
has principal > 0 and rate > 0, but carries whatever lock_days was
supplied (including 0 or negative). -/
theorem claim_c9_stake_validation (s : WalletState) (uid : Int)
    (amount apy : ℚ) (lockDays : Int) :
    ((amount ≤ 0 ∨ apy ≤ 0) →
      (create_stake_position s uid amount apy lockDays).1 = s ∧
      (create_stake_position s uid amount apy lockDays).2 =
        (if amount ≤ 0 then .amountNotPositive else .apyNotPositive)) ∧
    (∀ pos ∈ (create_stake_position s uid amount apy lockDays).1.stakes,
        pos ∈ s.stakes ∨ (0 < pos.amount ∧ 0 < pos.apy ∧ pos.lockDays = lockDays)) := by
  by_cases hamt : amount ≤ 0
  · constructor
    · intro _
      unfold create_stake_position
      rw [if_pos hamt]
      exact ⟨rfl, (if_pos hamt).symm⟩
    · intro pos hpos
      unfold create_stake_position at hpos
      rw [if_pos hamt] at hpos
      exact Or.inl hpos
  · by_cases happy : apy ≤ 0
    · constructor
      · intro _
        unfold create_stake_position
        rw [if_neg hamt, if_pos happy]
        exact ⟨rfl, (if_neg hamt).symm⟩
      · intro pos hpos
        unfold create_stake_position at hpos
        rw [if_neg hamt, if_pos happy] at hpos
        exact Or.inl hpos
    · constructor
      · intro h
        rcases h with h | h
        · exact absurd h hamt
        · exact absurd h happy
      · intro pos hpos
        cases hfind : findWallet s.wallets uid with
        | none =>
            unfold create_stake_position at hpos
            rw [if_neg hamt, if_neg happy] at hpos
            simp only [hfind] at hpos
            exact Or.inl hpos
        | some w =>
            by_cases hlt : w.balance < amount
            · unfold create_stake_position at hpos
              rw [if_neg hamt, if_neg happy] at hpos
              simp only [hfind] at hpos
              rw [if_pos hlt] at hpos
              exact Or.inl hpos
            · rw [stake_eq_success hamt happy hfind hlt] at hpos
              simp only [List.mem_append, List.mem_singleton] at hpos
              rcases hpos with h1 | h2
              · exact Or.inl h1
              · subst h2
                exact Or.inr ⟨not_le.mp hamt, not_le.mp happy, rfl⟩

/-- Witness: open with principal 0 is rejected with the state unchanged. -/
theorem claim_c9_witness :
    (create_stake_position sD 3 0 10 7).1 = sD ∧
    (create_stake_position sD 3 0 10 7).2 =
      (if (0 : ℚ) ≤ 0 then StakeResult.amountNotPositive else .apyNotPositive) :=
  (claim_c9_stake_validation sD 3 0 10 7).1 (Or.inl (le_refl 0))

/-- C10 (code evaluated at its failing input): the snapshot reporter can
never return a snapshot.  Importing SLH/admin_tools fails because db.py
defines no get_payments_stats, and even past the import the with-block
binds the (conn, cur) pair itself to cur, so cur.execute raises
AttributeError, which db_cursor re-raises to the caller — instead of the
claimed zeroed-defaults snapshot. -/
theorem claim_c10_snapshot_raises :
    import_admin_tools = Except.error (PyErr.importError "get_payments_stats") ∧
    (∀ conn cur : PyVal,
      admin_snapshot_body conn cur = Except.error PyErr.attributeError) ∧
    (∀ conn cur : PyVal,
      get_admin_wallet_snapshot_run conn cur =
        Except.error (PyErr.importError "get_payments_stats")) :=
  ⟨rfl, fun _ _ => rfl, fun _ _ => rfl⟩

end BotShop
